import Mathlib

set_option maxRecDepth 8000

/-!
Shallow embedding of the automotive HMI proof-of-concept pipeline:
the Pinia metrics store (MetricBuffer), the dashboard frame loop
(FrameScheduler), and the OffscreenCanvas render worker (RenderEngine,
LatencyTracker, card-grid geometry).  Numeric values are modelled as
rationals; time stamps are external inputs.
-/

/-- A decoded telemetry payload, as held by the Pinia store
(`MetricPayload` in `stores/metrics`). -/
structure MetricPayload where
  metric : String
  label : String
  unit : String
  value : ℚ
  timestamp : ℚ
deriving DecidableEq

/-- Association-list model of a JS `Map` / keyed record: `set` updates the
first (unique) occurrence in place, else appends. -/
def mapSet {V : Type} : List (String × V) → String → V → List (String × V)
  | [], k, v => [(k, v)]
  | (k', v') :: rest, k, v =>
      if k' = k then (k, v) :: rest else (k', v') :: mapSet rest k v

/-- Keyed lookup in the association-list model of a JS `Map`. -/
def mapLookup {V : Type} : List (String × V) → String → Option V
  | [], _ => none
  | (k', v') :: rest, k => if k' = k then some v' else mapLookup rest k

/-- State of the Pinia metrics store: the keyed last-write-wins map and the
append-only delivery queue. -/
structure StoreState where
  metrics : List (String × MetricPayload)
  queue : List MetricPayload
deriving DecidableEq

/-- The store's `addMeasurement`: record the payload as latest for its id and
append it to the queue. -/
def addMeasurement (payload : MetricPayload) (s : StoreState) : StoreState :=
  { metrics := mapSet s.metrics payload.metric payload,
    queue := s.queue ++ [payload] }

/-- The store's `dequeueBatch`: return an empty batch when nothing is queued,
otherwise splice out and return the whole queue. -/
def dequeueBatch (s : StoreState) : List MetricPayload × StoreState :=
  if s.queue = [] then ([], s)
  else (s.queue, { s with queue := [] })

/-- An ingest-side event: an `addMeasurement` call or a `dequeueBatch` call. -/
inductive BufOp where
  | add (payload : MetricPayload)
  | drain
deriving DecidableEq

/-- Run a sequence of store events, collecting each drain's batch. -/
def runBuf : List BufOp → StoreState → List (List MetricPayload) × StoreState
  | [], s => ([], s)
  | BufOp.add p :: ops, s => runBuf ops (addMeasurement p s)
  | BufOp.drain :: ops, s =>
      ((dequeueBatch s).1 :: (runBuf ops (dequeueBatch s).2).1,
        (runBuf ops (dequeueBatch s).2).2)

/-- The payloads added by a sequence of store events, in arrival order. -/
def addedOf : List BufOp → List MetricPayload
  | [] => []
  | BufOp.add p :: ops => p :: addedOf ops
  | BufOp.drain :: ops => addedOf ops

/-- The worker's latency-window push: append the sample, then trim from the
front whenever the length exceeds the fixed capacity of 360. -/
def pushLatency (samples : List ℚ) (x : ℚ) : List ℚ :=
  if (samples ++ [x]).length > 360 then
    (samples ++ [x]).drop ((samples ++ [x]).length - 360)
  else samples ++ [x]

/-- The worker's `quantile`: 0 on an empty window, else the linearly
interpolated order statistic at index `(n - 1) * q` over a sorted copy. -/
def quantile (values : List ℚ) (q : ℚ) : ℚ :=
  if values.length = 0 then 0
  else
    let sorted := values.insertionSort (· ≤ ·)
    let index : ℚ := ((sorted.length : ℚ) - 1) * q
    let lower : ℤ := ⌊index⌋
    let upper : ℤ := ⌈index⌉
    if lower = upper then sorted.getD lower.toNat 0
    else
      sorted.getD lower.toNat 0 * (1 - (index - lower)) +
        sorted.getD upper.toNat 0 * (index - lower)

/-- The interpolated order statistic of the spec, taken over an explicitly
sorted list: index `(n - 1) * q`, exact ranked value when the index is
integral, else the linear blend of the floor- and ceil-ranked values. -/
def rankValue (sorted : List ℚ) (q : ℚ) : ℚ :=
  let index : ℚ := ((sorted.length : ℚ) - 1) * q
  let lower : ℤ := ⌊index⌋
  let upper : ℤ := ⌈index⌉
  if lower = upper then sorted.getD lower.toNat 0
  else
    sorted.getD lower.toNat 0 * (1 - (index - lower)) +
      sorted.getD upper.toNat 0 * (index - lower)

/-- The geometry of one metric card as computed by `computeCardRect`. -/
structure CardRect where
  x : ℚ
  y : ℚ
  cardWidth : ℚ
  cardHeight : ℚ
deriving DecidableEq

/-- The worker's `computeCardRect`: fixed 4-column grid with a 16px gap and
120px card height over the current viewport width. -/
def computeCardRect (width : ℚ) (index : ℕ) : CardRect :=
  let columns : ℕ := 4
  let gap : ℚ := 16
  let cardWidth : ℚ := (width - gap * ((columns : ℚ) + 1)) / (columns : ℚ)
  let cardHeight : ℚ := 120
  let xIndex : ℕ := index % columns
  let yIndex : ℕ := index / columns
  { x := gap + (xIndex : ℚ) * (cardWidth + gap),
    y := gap + (yIndex : ℚ) * (cardHeight + gap),
    cardWidth := cardWidth,
    cardHeight := cardHeight }

/-- A catalog entry (`MetricDescriptor` in the worker): id, label, unit. -/
structure MetricDescriptor where
  metric : String
  label : String
  unit : String
deriving DecidableEq

/-- Per-metric render state (`MetricRenderState`): descriptor fields plus the
last value and timestamp. -/
structure MetricRenderState where
  metric : String
  label : String
  unit : String
  value : ℚ
  timestamp : ℚ
deriving DecidableEq

/-- The initial render state seeded for a catalog entry at `init`: the
descriptor with the sentinel value 0 and timestamp 0. -/
def seed (d : MetricDescriptor) : MetricRenderState :=
  { metric := d.metric, label := d.label, unit := d.unit, value := 0, timestamp := 0 }

/-- JS `Set.add` on an insertion-ordered string set. -/
def dirtyAdd (s : List String) (x : String) : List String :=
  if x ∈ s then s else s ++ [x]

/-- The render worker's module state: surface flags, geometry, catalog,
per-metric states, dirty set, redraw flag, frame statistics and the latency
sample window. -/
structure EngineState where
  hasCanvas : Bool
  hasCtx : Bool
  width : ℚ
  height : ℚ
  dpr : ℚ
  metrics : List MetricDescriptor
  metricState : List (String × MetricRenderState)
  dirtyMetrics : List String
  needsFullRedraw : Bool
  lastFrameTime : ℚ
  fps : ℚ
  renderMs : ℚ
  latencySamples : List ℚ

/-- The worker module's top-level state before any message, with the load
time `t0` as the initial `lastFrameTime`. -/
def initialState (t0 : ℚ) : EngineState :=
  { hasCanvas := false, hasCtx := false, width := 1280, height := 720, dpr := 1,
    metrics := [], metricState := [], dirtyMetrics := [], needsFullRedraw := true,
    lastFrameTime := t0, fps := 60, renderMs := 0, latencySamples := [] }

/-- The worker's `ensureContext`: a no-op without a canvas, else acquires the
2D context (modelled as setting the context flag). -/
def ensureContext (st : EngineState) : EngineState :=
  if st.hasCanvas = false then st else { st with hasCtx := true }

/-- The worker's `resize`: store the new geometry; with a canvas present,
re-acquire the context, refill the dirty set with every catalog id and set
the full-redraw flag. -/
def resize (nextWidth nextHeight nextDpr : ℚ) (st : EngineState) : EngineState :=
  let st1 := { st with width := nextWidth, height := nextHeight, dpr := nextDpr }
  if st1.hasCanvas = false then st1
  else
    let st2 := ensureContext st1
    { st2 with
      dirtyMetrics := List.foldl (fun s d => dirtyAdd s d.metric) [] st2.metrics,
      needsFullRedraw := true }

/-- One update of the `metricsBatch` handler: insert a new render state for an
unknown id or update value/timestamp in place, push the latency sample
`now - timestamp`, and mark the id dirty. -/
def applyUpdate (now : ℚ) (st : EngineState) (u : MetricRenderState) : EngineState :=
  let newState :=
    match mapLookup st.metricState u.metric with
    | none => u
    | some s0 => { s0 with value := u.value, timestamp := u.timestamp }
  { st with
    metricState := mapSet st.metricState u.metric newState,
    latencySamples := pushLatency st.latencySamples (now - u.timestamp),
    dirtyMetrics := dirtyAdd st.dirtyMetrics u.metric }

/-- The `metricsBatch` handler: apply each update in order. -/
def applyBatch (now : ℚ) (st : EngineState) (updates : List MetricRenderState) :
    EngineState :=
  List.foldl (applyUpdate now) st updates

/-- One drawing command of a render pass, abstracting the canvas calls. -/
inductive DrawOp where
  | background
  | card (id : String) (rect : CardRect)
  | clearArea (x y w h : ℚ)
deriving DecidableEq

/-- The debug-report message posted every render frame. -/
structure DebugMsg where
  fps : ℚ
  renderMs : ℚ
  latencyP50 : ℚ
  latencyP95 : ℚ
deriving DecidableEq

/-- The full-redraw pass over the catalog from index `i`: draw the card of
every catalog metric that has a render state, in catalog order. -/
def cardsFrom (ms : List (String × MetricRenderState)) (w : ℚ) (i : ℕ) :
    List MetricDescriptor → List DrawOp
  | [] => []
  | d :: rest =>
      (match mapLookup ms d.metric with
       | some _ => [DrawOp.card d.metric (computeCardRect w i)]
       | none => []) ++ cardsFrom ms w (i + 1) rest

/-- The dirty-region pass over the catalog from index `i`: for each dirty
catalog metric, clear its card area (2px margin) and redraw its card when a
render state exists. -/
def dirtyCards (ms : List (String × MetricRenderState)) (dirty : List String)
    (w : ℚ) (i : ℕ) : List MetricDescriptor → List DrawOp
  | [] => []
  | d :: rest =>
      (if d.metric ∈ dirty then
        DrawOp.clearArea ((computeCardRect w i).x - 2) ((computeCardRect w i).y - 2)
            ((computeCardRect w i).cardWidth + 4) ((computeCardRect w i).cardHeight + 4) ::
          (match mapLookup ms d.metric with
           | some _ => [DrawOp.card d.metric (computeCardRect w i)]
           | none => [])
      else []) ++ dirtyCards ms dirty w (i + 1) rest

/-- The redraw part of `renderFrame`: full redraw when the flag is set, else a
dirty-region pass when the dirty set is non-empty, else nothing; the consumed
dirty set (and flag) are cleared. -/
def redrawPass (st1 : EngineState) : EngineState × List DrawOp :=
  if st1.needsFullRedraw = true then
    ({ st1 with needsFullRedraw := false, dirtyMetrics := [] },
      DrawOp.background :: cardsFrom st1.metricState st1.width 0 st1.metrics)
  else if st1.dirtyMetrics.isEmpty = false then
    ({ st1 with dirtyMetrics := [] },
      dirtyCards st1.metricState st1.dirtyMetrics st1.width 0 st1.metrics)
  else (st1, [])

/-- The worker's `renderFrame` at time `now` with measured render wall time
`dur`: without a context it only reschedules; otherwise it updates fps (only
when the frame delta is positive), runs the redraw pass, records `renderMs`,
and posts the debug report with fps, renderMs and the latency quantiles. -/
def renderFrame (now dur : ℚ) (st : EngineState) :
    EngineState × List DrawOp × Option DebugMsg :=
  if st.hasCtx = false then (st, [], none)
  else
    let fps1 := if 0 < now - st.lastFrameTime then 1000 / (now - st.lastFrameTime) else st.fps
    let st1 := { st with fps := fps1, lastFrameTime := now }
    let pr := redrawPass st1
    ({ pr.1 with renderMs := dur }, pr.2,
      some { fps := fps1, renderMs := dur,
             latencyP50 := quantile st1.latencySamples (1 / 2),
             latencyP95 := quantile st1.latencySamples (19 / 20) })

/-- The seeding loop of the `init` handler: for each catalog entry, set its
initial render state and mark it dirty. -/
def seedCatalog (st : EngineState) (ds : List MetricDescriptor) : EngineState :=
  List.foldl
    (fun s dsc =>
      { s with
        metricState := mapSet s.metricState dsc.metric (seed dsc),
        dirtyMetrics := dirtyAdd s.dirtyMetrics dsc.metric }) st ds

/-- The `init` handler: adopt the canvas and catalog, resize, seed every
catalog entry, ensure the context and set the full-redraw flag. -/
def handleInit (catalog : List MetricDescriptor) (w h d : ℚ) (st : EngineState) :
    EngineState :=
  let st1 := { st with hasCanvas := true, metrics := catalog }
  let st2 := resize w h d st1
  let st3 := seedCatalog st2 catalog
  let st4 := ensureContext st3
  { st4 with needsFullRedraw := true }

/-- A message or frame tick processed by the render worker. -/
inductive Msg where
  | init (catalog : List MetricDescriptor) (w h d : ℚ)
  | resizeTo (w h d : ℚ)
  | batch (now : ℚ) (updates : List MetricRenderState)
  | frame (now dur : ℚ)

/-- The worker's dispatch: one state transition per message. -/
def step (st : EngineState) (m : Msg) : EngineState :=
  match m with
  | Msg.init catalog w h d => handleInit catalog w h d st
  | Msg.resizeTo w h d => resize w h d st
  | Msg.batch now updates => applyBatch now st updates
  | Msg.frame now dur => (renderFrame now dur st).1

/-- State of the dashboard component's frame loop: the store plus the batches
posted to the worker so far. -/
structure DashState where
  store : StoreState
  sent : List (List MetricPayload)

/-- One `startFrameLoop` tick: drain the store unconditionally; post the
batch only when it is non-empty and the worker reference is set. -/
def loopStep (hasWorker : Bool) (s : DashState) : DashState :=
  if (dequeueBatch s.store).1.isEmpty = false ∧ hasWorker = true then
    { store := (dequeueBatch s.store).2, sent := s.sent ++ [(dequeueBatch s.store).1] }
  else
    { store := (dequeueBatch s.store).2, sent := s.sent }

/-- An ingest-side event at the dashboard: an MQTT payload arrival or a
frame-loop tick (with or without an established worker). -/
inductive DashOp where
  | add (payload : MetricPayload)
  | tick (hasWorker : Bool)

/-- Run a sequence of dashboard events. -/
def runDash (ops : List DashOp) (s : DashState) : DashState :=
  List.foldl
    (fun st op =>
      match op with
      | DashOp.add p => { st with store := addMeasurement p st.store }
      | DashOp.tick w => loopStep w st) s ops

/-- The payloads added by a sequence of dashboard events, in arrival order. -/
def dashAddsOf : List DashOp → List MetricPayload
  | [] => []
  | DashOp.add p :: ops => p :: dashAddsOf ops
  | DashOp.tick _ :: ops => dashAddsOf ops

/-- The dirty set only ever holds ids that have a render-state entry. -/
def dirtySeeded (st : EngineState) : Prop :=
  ∀ x ∈ st.dirtyMetrics, (mapLookup st.metricState x).isSome = true

/-- Once the canvas is adopted, every catalog id has a render-state entry. -/
def catalogSeeded (st : EngineState) : Prop :=
  st.hasCanvas = true →
    ∀ d ∈ st.metrics, (mapLookup st.metricState d.metric).isSome = true

/-- The `speed` catalog entry of the dashboard. -/
def speedDescr : MetricDescriptor :=
  { metric := "speed", label := "Speed", unit := "km/h" }

/-- A `speed` update payload with value 87 at producer time 100. -/
def speedUpd : MetricRenderState :=
  { metric := "speed", label := "Speed", unit := "km/h", value := 87, timestamp := 100 }

/-- An update for an id that is not in the catalog. -/
def mysteryUpd : MetricRenderState :=
  { metric := "mystery", label := "Mystery", unit := "", value := 1, timestamp := 0 }

/-- A concrete message run: init with a one-entry catalog, then a batch
holding an update for an unknown id. -/
def cexMsgs : List Msg :=
  [Msg.init [speedDescr] 1280 720 1, Msg.batch 500 [mysteryUpd]]

/-- A concrete initialized engine: canvas and context held, one catalog entry
seeded. -/
def engineW : EngineState :=
  { hasCanvas := true, hasCtx := true, width := 1280, height := 720, dpr := 1,
    metrics := [speedDescr], metricState := [("speed", seed speedDescr)],
    dirtyMetrics := [], needsFullRedraw := false, lastFrameTime := 0, fps := 60,
    renderMs := 0, latencySamples := [] }

theorem runBuf_conservation (ops : List BufOp) :
    ∀ s : StoreState,
      (runBuf ops s).1.flatten ++ (runBuf ops s).2.queue = s.queue ++ addedOf ops := by
  induction ops with
  | nil => intro s; simp [runBuf, addedOf]
  | cons op ops ih =>
      intro s
      cases op with
      | add p =>
          simp only [runBuf, addedOf]
          rw [ih (addMeasurement p s)]
          simp [addMeasurement]
      | drain =>
          simp only [runBuf, addedOf, dequeueBatch]
          by_cases h : s.queue = []
          · simp only [if_pos h, List.flatten_cons, h]
            simpa [h] using ih s
          · simp only [if_neg h, List.flatten_cons, List.append_assoc,
              ih { s with queue := [] }]
            simp

/-- C1. Over any interleaving of `add` and `drainAll` calls, the drained
batches concatenated with the still-pending queue equal the added payloads in
arrival order (so every payload lands in exactly one batch, in order); a drain
on an empty buffer returns an empty batch and leaves the state unchanged, and
a second drain immediately after a drain returns an empty batch. -/
theorem claim_C1 (ops : List BufOp) (s s' : StoreState)
    (m : List (String × MetricPayload)) :
    ((runBuf ops s).1.flatten ++ (runBuf ops s).2.queue = s.queue ++ addedOf ops) ∧
    (dequeueBatch { metrics := m, queue := [] } =
      ([], { metrics := m, queue := [] })) ∧
    ((dequeueBatch (dequeueBatch s').2).1 = []) := by
  refine ⟨runBuf_conservation ops s, rfl, ?_⟩
  unfold dequeueBatch
  by_cases h : s'.queue = [] <;> simp [h]

theorem length_pushLatency (samples : List ℚ) (x : ℚ) :
    (pushLatency samples x).length = min (samples.length + 1) 360 := by
  unfold pushLatency
  by_cases h : (samples ++ [x]).length > 360
  · rw [if_pos h]
    simp only [List.length_drop, List.length_append, List.length_singleton] at h ⊢
    omega
  · rw [if_neg h]
    simp only [List.length_append, List.length_singleton] at h ⊢
    omega

theorem foldl_pushLatency (xs : List ℚ) :
    ∀ init : List ℚ, init.length ≤ 360 →
      List.foldl pushLatency init xs =
        (init ++ xs).drop (init.length + xs.length - 360) := by
  induction xs with
  | nil =>
      intro init h
      simp [Nat.sub_eq_zero_of_le h]
  | cons x xs ih =>
      intro init h
      rw [List.foldl_cons, ih (pushLatency init x) (by rw [length_pushLatency]; omega)]
      by_cases hlen : init.length + 1 ≤ 360
      · have hpush : pushLatency init x = init ++ [x] := by
          unfold pushLatency
          rw [if_neg (by simp; omega)]
        rw [hpush]
        have harr : (init ++ [x]) ++ xs = init ++ x :: xs := by simp
        rw [harr]
        congr 1
        simp
        omega
      · have h360 : init.length = 360 := by omega
        have hpush : pushLatency init x = (init ++ [x]).drop 1 := by
          unfold pushLatency
          rw [if_pos (by simp; omega)]
          congr 1
          simp [h360]
        rw [hpush]
        have h1 : (1 : ℕ) ≤ (init ++ [x]).length := by simp
        rw [← List.drop_append_of_le_length h1, List.drop_drop]
        have harr : (init ++ [x]) ++ xs = init ++ x :: xs := by simp
        rw [harr]
        congr 1
        simp [List.length_drop, h360]
        omega

/-- C3. Each latency push — and hence each applied batch update — keeps the
window at `min (n+1) 360` samples, so never above the capacity 360, and
pushing a whole history onto the empty window retains exactly the most recent
360 samples (the oldest are dropped from the front). -/
theorem claim_C3 (samples : List ℚ) (x : ℚ) (xs : List ℚ) (now : ℚ)
    (st : EngineState) (u : MetricRenderState) :
    (pushLatency samples x).length = min (samples.length + 1) 360 ∧
    (pushLatency samples x).length ≤ 360 ∧
    (applyUpdate now st u).latencySamples.length =
      min (st.latencySamples.length + 1) 360 ∧
    List.foldl pushLatency [] xs = xs.drop (xs.length - 360) := by
  refine ⟨length_pushLatency samples x, ?_, ?_, ?_⟩
  · rw [length_pushLatency]; omega
  · exact length_pushLatency _ _
  · simpa using foldl_pushLatency xs [] (by simp)

/-- C8. The card grid is the fixed 4-column, 16px-gap function: card width is
`(width - 16 * 5) / 4`, the card at catalog index `i` sits in column `i % 4`
and row `i / 4`; at viewport width 1280 the card width is 300 and index 5
lands in row 1, column 1. -/
theorem claim_C8 (w : ℚ) (i : ℕ) :
    (computeCardRect w i).cardWidth = (w - 16 * 5) / 4 ∧
    (computeCardRect w i).cardHeight = 120 ∧
    (computeCardRect w i).x = 16 + ((i % 4 : ℕ) : ℚ) * ((w - 16 * 5) / 4 + 16) ∧
    (computeCardRect w i).y = 16 + ((i / 4 : ℕ) : ℚ) * (120 + 16) ∧
    (computeCardRect 1280 i).cardWidth = 300 ∧
    (computeCardRect 1280 5).x = 16 + 1 * (300 + 16) ∧
    (computeCardRect 1280 5).y = 16 + 1 * (120 + 16) := by
  unfold computeCardRect
  norm_num

/-- C2. `quantile` on an empty window returns 0; on a non-empty window it is
the linearly-interpolated order statistic over a sorted copy of the window
(a sorted permutation evaluated by the rank formula); on [10,20,30,40,50],
`quantile 0.5 = 30` and `quantile 0.95` blends the two largest ranked values
as `40 * (1 - 4/5) + 50 * (4/5)`. -/
theorem claim_C2 (values : List ℚ) (q : ℚ) (hne : values ≠ []) :
    quantile [] q = 0 ∧
    (∃ s : List ℚ, s.Perm values ∧ s.Sorted (· ≤ ·) ∧
      quantile values q = rankValue s q) ∧
    quantile [10, 20, 30, 40, 50] (1 / 2) = 30 ∧
    quantile [10, 20, 30, 40, 50] (19 / 20) = 40 * (1 - 4 / 5) + 50 * (4 / 5) := by
  have hlen : values.length ≠ 0 := fun h => hne (List.length_eq_zero.mp h)
  have hsort : List.insertionSort (· ≤ ·) [(10 : ℚ), 20, 30, 40, 50] =
      [10, 20, 30, 40, 50] := by decide
  refine ⟨by simp [quantile], ?_, ?_, ?_⟩
  · refine ⟨values.insertionSort (· ≤ ·), List.perm_insertionSort _ _,
      List.sorted_insertionSort _ _, ?_⟩
    unfold quantile rankValue
    rw [if_neg hlen]
  · unfold quantile
    rw [if_neg (by norm_num)]
    simp only [hsort]
    norm_num [List.getD]
    decide
  · unfold quantile
    rw [if_neg (by norm_num)]
    simp only [hsort]
    have hidx : (((List.length [(10 : ℚ), 20, 30, 40, 50] : ℕ) : ℚ) - 1) * (19 / 20) =
        19 / 5 := by norm_num
    rw [hidx]
    have hfloor : ⌊(19 : ℚ) / 5⌋ = 3 := by norm_num
    have hceil : ⌈(19 : ℚ) / 5⌉ = 4 := by
      rw [Int.ceil_eq_iff]
      norm_num
    rw [hfloor, hceil]
    have h3 : List.getD [(10 : ℚ), 20, 30, 40, 50] (Int.toNat 3) 0 = 40 := by decide
    have h4 : List.getD [(10 : ℚ), 20, 30, 40, 50] (Int.toNat 4) 0 = 50 := by decide
    rw [if_neg (by decide), h3, h4]
    push_cast
    ring_nf

theorem mapLookup_mapSet_self {V : Type} (m : List (String × V)) (k : String) (v : V) :
    mapLookup (mapSet m k v) k = some v := by
  induction m with
  | nil => simp [mapSet, mapLookup]
  | cons p rest ih =>
      obtain ⟨a, b⟩ := p
      by_cases h : a = k
      · simp [mapSet, mapLookup, h]
      · simp [mapSet, mapLookup, h, ih]

theorem mapSet_mapSet_self {V : Type} (m : List (String × V)) (k : String) (v w : V) :
    mapSet (mapSet m k v) k w = mapSet m k w := by
  induction m with
  | nil => simp [mapSet]
  | cons p rest ih =>
      obtain ⟨a, b⟩ := p
      by_cases h : a = k
      · simp [mapSet, h]
      · simp [mapSet, h, ih]

theorem isSome_mapLookup_mapSet {V : Type} (m : List (String × V)) (k k' : String)
    (v : V) :
    (mapLookup (mapSet m k v) k').isSome = true ↔
      k' = k ∨ (mapLookup m k').isSome = true := by
  induction m with
  | nil =>
      by_cases h : k = k'
      · subst h
        simp [mapSet, mapLookup]
      · simp [mapSet, mapLookup, h, Ne.symm h]
  | cons p rest ih =>
      obtain ⟨a, b⟩ := p
      by_cases hak : a = k
      · subst hak
        by_cases hk' : a = k'
        · subst hk'
          simp [mapSet, mapLookup]
        · simp [mapSet, mapLookup, hk', Ne.symm hk']
      · by_cases hk' : a = k'
        · subst hk'
          simp [mapSet, mapLookup, hak]
        · simp [mapSet, mapLookup, hak, hk', ih]

theorem mem_dirtyAdd (s : List String) (x y : String) :
    y ∈ dirtyAdd s x ↔ y ∈ s ∨ y = x := by
  unfold dirtyAdd
  by_cases h : x ∈ s
  · simp only [if_pos h]
    constructor
    · exact Or.inl
    · rintro (hy | rfl) <;> [exact hy; exact h]
  · simp [if_neg h]

theorem mem_dirtyAdd_self (s : List String) (x : String) : x ∈ dirtyAdd s x := by
  rw [mem_dirtyAdd]; exact Or.inr rfl

theorem getLast_pushLatency (s : List ℚ) (x : ℚ) :
    (pushLatency s x).getLast? = some x := by
  unfold pushLatency
  by_cases h : (s ++ [x]).length > 360
  · rw [if_pos h]
    have hle : (s ++ [x]).length - 360 ≤ s.length := by
      simp only [List.length_append, List.length_singleton] at h ⊢
      omega
    rw [List.drop_append_of_le_length hle]
    exact List.getLast?_concat _
  · rw [if_neg h]
    exact List.getLast?_concat _

/-- C5. Applying one batch update inserts a new render state verbatim for an
unknown id, updates only value and timestamp in place for a known id, appends
the latency sample `now - timestamp` (it becomes the newest window entry),
and marks the metric id dirty. -/
theorem claim_C5 (now : ℚ) (st : EngineState) (u : MetricRenderState) :
    (mapLookup st.metricState u.metric = none →
      mapLookup (applyUpdate now st u).metricState u.metric = some u) ∧
    (∀ s0, mapLookup st.metricState u.metric = some s0 →
      mapLookup (applyUpdate now st u).metricState u.metric =
        some { s0 with value := u.value, timestamp := u.timestamp }) ∧
    (applyUpdate now st u).latencySamples.getLast? = some (now - u.timestamp) ∧
    u.metric ∈ (applyUpdate now st u).dirtyMetrics := by
  refine ⟨?_, ?_, ?_, ?_⟩
  · intro h
    unfold applyUpdate
    simp only [h]
    exact mapLookup_mapSet_self _ _ _
  · intro s0 h
    unfold applyUpdate
    simp only [h]
    exact mapLookup_mapSet_self _ _ _
  · exact getLast_pushLatency _ _
  · exact mem_dirtyAdd_self _ _

/-- Witness for C5: the payload `speed = 87` stamped 100, applied when now is
142, is inserted verbatim, records the latency sample 42 and adds `speed` to
the dirty set. -/
theorem claim_C5_witness :
    mapLookup (applyUpdate 142 (initialState 0) speedUpd).metricState "speed" =
      some speedUpd ∧
    (applyUpdate 142 (initialState 0) speedUpd).latencySamples.getLast? = some 42 ∧
    "speed" ∈ (applyUpdate 142 (initialState 0) speedUpd).dirtyMetrics := by
  have h := claim_C5 142 (initialState 0) speedUpd
  refine ⟨h.1 rfl, ?_, h.2.2.2⟩
  have h42 : (142 : ℚ) - speedUpd.timestamp = 42 := by
    simp [speedUpd]; norm_num
  rw [← h42]
  exact h.2.2.1

/-- C7. Applying the same update twice leaves the same per-metric render-state
map as applying it once. -/
theorem claim_C7 (now₁ now₂ : ℚ) (st : EngineState) (u : MetricRenderState) :
    (applyUpdate now₂ (applyUpdate now₁ st u) u).metricState =
      (applyUpdate now₁ st u).metricState := by
  unfold applyUpdate
  simp only [mapLookup_mapSet_self]
  cases h : mapLookup st.metricState u.metric with
  | none => simp only [h, mapSet_mapSet_self]
  | some s0 => simp only [h, mapSet_mapSet_self]

theorem mem_foldl_dirtyAdd (ds : List MetricDescriptor) :
    ∀ (acc : List String) (x : String),
      x ∈ List.foldl (fun s d => dirtyAdd s d.metric) acc ds →
        x ∈ acc ∨ x ∈ ds.map (fun d => d.metric) := by
  induction ds with
  | nil => intro acc x hx; simpa using hx
  | cons d rest ih =>
      intro acc x hx
      rcases ih (dirtyAdd acc d.metric) x hx with h | h
      · rcases (mem_dirtyAdd acc d.metric x).mp h with h' | h'
        · exact Or.inl h'
        · exact Or.inr (by simp [h'])
      · refine Or.inr ?_
        simp only [List.map_cons, List.mem_cons]
        exact Or.inr h

theorem resize_metricState (w h d : ℚ) (st : EngineState) :
    (resize w h d st).metricState = st.metricState := by
  unfold resize ensureContext
  by_cases hc : st.hasCanvas = false <;> simp [hc]

theorem resize_metrics (w h d : ℚ) (st : EngineState) :
    (resize w h d st).metrics = st.metrics := by
  unfold resize ensureContext
  by_cases hc : st.hasCanvas = false <;> simp [hc]

theorem resize_hasCanvas (w h d : ℚ) (st : EngineState) :
    (resize w h d st).hasCanvas = st.hasCanvas := by
  unfold resize ensureContext
  by_cases hc : st.hasCanvas = false <;> simp [hc]

theorem resize_dirty (w h d : ℚ) (st : EngineState) :
    (st.hasCanvas = false ∧ (resize w h d st).dirtyMetrics = st.dirtyMetrics) ∨
      (st.hasCanvas = true ∧ (resize w h d st).dirtyMetrics =
        List.foldl (fun s dsc => dirtyAdd s dsc.metric) [] st.metrics) := by
  unfold resize ensureContext
  by_cases hc : st.hasCanvas = false
  · exact Or.inl ⟨hc, by simp [hc]⟩
  · exact Or.inr ⟨by simpa using hc, by simp [hc]⟩

theorem resize_dirty_canvas (w h d : ℚ) (st : EngineState)
    (hc : st.hasCanvas = true) :
    (resize w h d st).dirtyMetrics =
      List.foldl (fun s dsc => dirtyAdd s dsc.metric) [] st.metrics := by
  unfold resize ensureContext
  simp [hc]

theorem ensureContext_metricState (st : EngineState) :
    (ensureContext st).metricState = st.metricState := by
  unfold ensureContext
  split <;> rfl

theorem ensureContext_dirty (st : EngineState) :
    (ensureContext st).dirtyMetrics = st.dirtyMetrics := by
  unfold ensureContext
  split <;> rfl

theorem ensureContext_metrics (st : EngineState) :
    (ensureContext st).metrics = st.metrics := by
  unfold ensureContext
  split <;> rfl

theorem seedCatalog_metrics (ds : List MetricDescriptor) :
    ∀ st : EngineState, (seedCatalog st ds).metrics = st.metrics := by
  induction ds with
  | nil => intro st; simp [seedCatalog]
  | cons d rest ih =>
      intro st
      simpa [seedCatalog] using ih _

theorem seedCatalog_hasCanvas (ds : List MetricDescriptor) :
    ∀ st : EngineState, (seedCatalog st ds).hasCanvas = st.hasCanvas := by
  induction ds with
  | nil => intro st; simp [seedCatalog]
  | cons d rest ih =>
      intro st
      simpa [seedCatalog] using ih _

theorem seedCatalog_lookup (ds : List MetricDescriptor) :
    ∀ (st : EngineState) (k : String),
      (mapLookup (seedCatalog st ds).metricState k).isSome = true ↔
        (mapLookup st.metricState k).isSome = true ∨
          k ∈ ds.map (fun d => d.metric) := by
  induction ds with
  | nil => intro st k; simp [seedCatalog]
  | cons d rest ih =>
      intro st k
      simp only [seedCatalog, List.foldl_cons] at ih ⊢
      rw [ih]
      simp only [isSome_mapLookup_mapSet, List.map_cons, List.mem_cons]
      tauto

theorem seedCatalog_dirty (ds : List MetricDescriptor) :
    ∀ (st : EngineState) (x : String),
      x ∈ (seedCatalog st ds).dirtyMetrics →
        x ∈ st.dirtyMetrics ∨ x ∈ ds.map (fun d => d.metric) := by
  induction ds with
  | nil => intro st x hx; simpa [seedCatalog] using hx
  | cons d rest ih =>
      intro st x hx
      simp only [seedCatalog, List.foldl_cons] at hx
      rcases ih _ x hx with h | h
      · rcases (mem_dirtyAdd _ _ _).mp h with h' | h'
        · exact Or.inl h'
        · exact Or.inr (by simp [h'])
      · exact Or.inr (by simp [List.mem_map] at h ⊢; exact Or.inr h)

theorem renderFrame_fields (now dur : ℚ) (st : EngineState) :
    (renderFrame now dur st).1.metricState = st.metricState ∧
    (renderFrame now dur st).1.metrics = st.metrics ∧
    (renderFrame now dur st).1.hasCanvas = st.hasCanvas ∧
    ((renderFrame now dur st).1.dirtyMetrics = st.dirtyMetrics ∨
      (renderFrame now dur st).1.dirtyMetrics = []) := by
  unfold renderFrame redrawPass
  by_cases hctx : st.hasCtx = false
  · simp [hctx]
  · by_cases hfull : st.needsFullRedraw = true
    · simp [hctx, hfull]
    · by_cases hd : st.dirtyMetrics.isEmpty = false <;> simp [hctx, hfull, hd]


theorem invariant_applyUpdate (now : ℚ) (st : EngineState) (u : MetricRenderState)
    (h1 : dirtySeeded st) (h2 : catalogSeeded st) :
    dirtySeeded (applyUpdate now st u) ∧ catalogSeeded (applyUpdate now st u) := by
  constructor
  · intro x hx
    have hx' : x ∈ dirtyAdd st.dirtyMetrics u.metric := hx
    show (mapLookup (mapSet st.metricState u.metric _) x).isSome = true
    rw [isSome_mapLookup_mapSet]
    rcases (mem_dirtyAdd _ _ _).mp hx' with h | h
    · exact Or.inr (h1 x h)
    · exact Or.inl h
  · intro hc d' hd'
    show (mapLookup (mapSet st.metricState u.metric _) d'.metric).isSome = true
    rw [isSome_mapLookup_mapSet]
    exact Or.inr (h2 hc d' hd')

theorem invariant_applyBatch (now : ℚ) (updates : List MetricRenderState) :
    ∀ st : EngineState, dirtySeeded st → catalogSeeded st →
      dirtySeeded (applyBatch now st updates) ∧
        catalogSeeded (applyBatch now st updates) := by
  induction updates with
  | nil => intro st h1 h2; exact ⟨h1, h2⟩
  | cons u rest ih =>
      intro st h1 h2
      have h' := invariant_applyUpdate now st u h1 h2
      simpa [applyBatch, List.foldl_cons] using
        ih (applyUpdate now st u) h'.1 h'.2

theorem invariant_resize (w h d : ℚ) (st : EngineState)
    (h1 : dirtySeeded st) (h2 : catalogSeeded st) :
    dirtySeeded (resize w h d st) ∧ catalogSeeded (resize w h d st) := by
  constructor
  · intro x hx
    rw [resize_metricState]
    rcases resize_dirty w h d st with ⟨_, hdq⟩ | ⟨hc, hdq⟩
    · rw [hdq] at hx
      exact h1 x hx
    · rw [hdq] at hx
      rcases mem_foldl_dirtyAdd _ [] x hx with habs | hmem
      · simp at habs
      · rcases List.mem_map.mp hmem with ⟨d', hd', rfl⟩
        exact h2 hc d' hd'
  · intro hc d' hd'
    rw [resize_hasCanvas] at hc
    rw [resize_metrics] at hd'
    rw [resize_metricState]
    exact h2 hc d' hd'

theorem invariant_handleInit (catalog : List MetricDescriptor) (w h d : ℚ)
    (st : EngineState) :
    dirtySeeded (handleInit catalog w h d st) ∧
      catalogSeeded (handleInit catalog w h d st) := by
  have hms : (handleInit catalog w h d st).metricState =
      (seedCatalog (resize w h d { st with hasCanvas := true, metrics := catalog })
        catalog).metricState := by
    show (ensureContext _).metricState = _
    exact ensureContext_metricState _
  have hdirty : (handleInit catalog w h d st).dirtyMetrics =
      (seedCatalog (resize w h d { st with hasCanvas := true, metrics := catalog })
        catalog).dirtyMetrics := by
    show (ensureContext _).dirtyMetrics = _
    exact ensureContext_dirty _
  have hmet : (handleInit catalog w h d st).metrics = catalog := by
    have : (handleInit catalog w h d st).metrics =
        (seedCatalog (resize w h d { st with hasCanvas := true, metrics := catalog })
          catalog).metrics := by
      show (ensureContext _).metrics = _
      exact ensureContext_metrics _
    rw [this, seedCatalog_metrics, resize_metrics]
  have hrd : (resize w h d { st with hasCanvas := true, metrics := catalog }).dirtyMetrics =
      List.foldl (fun s dsc => dirtyAdd s dsc.metric) [] catalog :=
    resize_dirty_canvas w h d _ rfl
  constructor
  · intro x hx
    rw [hdirty] at hx
    rw [hms]
    rw [seedCatalog_lookup]
    rcases seedCatalog_dirty catalog _ x hx with hpre | hcat
    · rw [hrd] at hpre
      rcases mem_foldl_dirtyAdd _ [] x hpre with habs | hmem
      · simp at habs
      · exact Or.inr hmem
    · exact Or.inr hcat
  · intro _ d' hd'
    rw [hmet] at hd'
    rw [hms, seedCatalog_lookup]
    exact Or.inr (List.mem_map.mpr ⟨d', hd', rfl⟩)

theorem invariant_frame (now dur : ℚ) (st : EngineState)
    (h1 : dirtySeeded st) (h2 : catalogSeeded st) :
    dirtySeeded (renderFrame now dur st).1 ∧
      catalogSeeded (renderFrame now dur st).1 := by
  obtain ⟨hms, hmet, hcv, hdirty⟩ := renderFrame_fields now dur st
  constructor
  · intro x hx
    rw [hms]
    rcases hdirty with hd | hd
    · rw [hd] at hx
      exact h1 x hx
    · rw [hd] at hx
      simp at hx
  · intro hc d' hd'
    rw [hcv] at hc
    rw [hmet] at hd'
    rw [hms]
    exact h2 hc d' hd'

theorem invariant_run (msgs : List Msg) :
    ∀ st : EngineState, dirtySeeded st → catalogSeeded st →
      dirtySeeded (List.foldl step st msgs) ∧
        catalogSeeded (List.foldl step st msgs) := by
  induction msgs with
  | nil => intro st h1 h2; exact ⟨h1, h2⟩
  | cons m rest ih =>
      intro st h1 h2
      have h' : dirtySeeded (step st m) ∧ catalogSeeded (step st m) := by
        cases m with
        | init catalog w hh d => exact invariant_handleInit catalog w hh d st
        | resizeTo w hh d => exact invariant_resize w hh d st h1 h2
        | batch now updates => exact invariant_applyBatch now updates st h1 h2
        | frame now dur => exact invariant_frame now dur st h1 h2
      simpa [List.foldl_cons] using ih (step st m) h'.1 h'.2

/-- C4 [corrected]. In every state reachable from the initial worker state by
any message sequence, every id in the dirty set has a render-state entry
(DirtySet is a subset of the MetricRenderState keys); it is not in general a
subset of the catalog ids, because updates for unknown ids are also marked
dirty. -/
theorem claim_C4 (t0 : ℚ) (msgs : List Msg) (x : String)
    (hx : x ∈ (List.foldl step (initialState t0) msgs).dirtyMetrics) :
    (mapLookup (List.foldl step (initialState t0) msgs).metricState x).isSome =
      true := by
  have h := invariant_run msgs (initialState t0)
    (by intro y hy; simp [initialState] at hy)
    (by intro hc; simp [initialState] at hc)
  exact h.1 x hx

/-- Witness for C4: after an init with the one-entry catalog, `speed` is dirty
and has a render-state entry. -/
theorem claim_C4_witness :
    (mapLookup
      (List.foldl step (initialState 0) [Msg.init [speedDescr] 1280 720 1]).metricState
      "speed").isSome = true :=
  claim_C4 0 [Msg.init [speedDescr] 1280 720 1] "speed" (by decide)

/-- Counterexample to C4 as stated: after an init with catalog `[speed]` and a
batch carrying an update for the unknown id `mystery`, the dirty set contains
`mystery`, which is not a catalog id. -/
theorem claim_C4_counterexample :
    "mystery" ∈ (List.foldl step (initialState 0) cexMsgs).dirtyMetrics ∧
      "mystery" ∉
        (List.foldl step (initialState 0) cexMsgs).metrics.map
          (fun d => d.metric) := by
  decide

theorem resize_hasCtx_canvas (w h d : ℚ) (st : EngineState)
    (hc : st.hasCanvas = true) : (resize w h d st).hasCtx = true := by
  unfold resize ensureContext
  simp [hc]

theorem resize_needsFullRedraw_canvas (w h d : ℚ) (st : EngineState)
    (hc : st.hasCanvas = true) : (resize w h d st).needsFullRedraw = true := by
  unfold resize ensureContext
  simp [hc]

theorem resize_width (w h d : ℚ) (st : EngineState) :
    (resize w h d st).width = w := by
  unfold resize ensureContext
  by_cases hc : st.hasCanvas = false <;> simp [hc]

theorem cardsFrom_eq (ms : List (String × MetricRenderState)) (w : ℚ)
    (ds : List MetricDescriptor) :
    ∀ i : ℕ, (∀ d ∈ ds, (mapLookup ms d.metric).isSome = true) →
      cardsFrom ms w i ds =
        (List.enumFrom i ds).map
          (fun p => DrawOp.card p.2.metric (computeCardRect w p.1)) := by
  induction ds with
  | nil => intro i _; simp [cardsFrom]
  | cons d rest ih =>
      intro i h
      obtain ⟨v, hv⟩ := Option.isSome_iff_exists.mp (h d (by simp))
      simp only [cardsFrom, hv, List.enumFrom, List.map_cons]
      rw [ih (i + 1) (fun d' hd' => h d' (by simp [hd']))]
      simp

theorem renderFrame_full (now dur : ℚ) (st : EngineState)
    (hctx : st.hasCtx = true) (hfull : st.needsFullRedraw = true) :
    (renderFrame now dur st).2.1 =
      DrawOp.background :: cardsFrom st.metricState st.width 0 st.metrics ∧
    (renderFrame now dur st).1.needsFullRedraw = false ∧
    (renderFrame now dur st).1.dirtyMetrics = [] := by
  unfold renderFrame redrawPass
  simp [hctx, hfull]

/-- C6. On an initialized engine (canvas adopted, catalog entries seeded),
the render pass that follows a `resize` is a full redraw: it paints the
background and then every catalog metric's card in its grid cell at the new
width, after which the full-redraw flag and the dirty set are cleared. -/
theorem claim_C6 (st : EngineState) (w h d now dur : ℚ)
    (hc : st.hasCanvas = true)
    (hs : ∀ dsc ∈ st.metrics, (mapLookup st.metricState dsc.metric).isSome = true) :
    (renderFrame now dur (resize w h d st)).2.1 =
      DrawOp.background ::
        (List.enumFrom 0 st.metrics).map
          (fun p => DrawOp.card p.2.metric (computeCardRect w p.1)) ∧
    (renderFrame now dur (resize w h d st)).1.needsFullRedraw = false ∧
    (renderFrame now dur (resize w h d st)).1.dirtyMetrics = [] := by
  have h1 := renderFrame_full now dur (resize w h d st)
    (resize_hasCtx_canvas w h d st hc) (resize_needsFullRedraw_canvas w h d st hc)
  refine ⟨?_, h1.2.1, h1.2.2⟩
  rw [h1.1, resize_metricState, resize_metrics, resize_width]
  rw [cardsFrom_eq st.metricState w st.metrics 0 hs]

/-- Witness for C6: a concrete initialized one-metric engine, resized to width
640, fully redraws the background and its single card and clears the flags. -/
theorem claim_C6_witness :
    (renderFrame 5 0 (resize 640 480 1 engineW)).2.1 =
      DrawOp.background ::
        (List.enumFrom 0 engineW.metrics).map
          (fun p => DrawOp.card p.2.metric (computeCardRect 640 p.1)) ∧
    (renderFrame 5 0 (resize 640 480 1 engineW)).1.needsFullRedraw = false ∧
    (renderFrame 5 0 (resize 640 480 1 engineW)).1.dirtyMetrics = [] :=
  claim_C6 engineW 640 480 1 5 0 rfl (by decide)

/-- C9. With a context held, every render frame posts the debug report with
exactly the four values fps, renderMs, latencyP50 and latencyP95 — whatever
the dirty set and full-redraw flag are — and when the frame delta is positive
the reported fps is `1000 / (now - lastFrameTime)`. -/
theorem claim_C9 (st : EngineState) (now dur : ℚ)
    (hctx : st.hasCtx = true) (hlt : st.lastFrameTime < now) :
    (renderFrame now dur st).2.2 =
      some { fps := 1000 / (now - st.lastFrameTime), renderMs := dur,
             latencyP50 := quantile st.latencySamples (1 / 2),
             latencyP95 := quantile st.latencySamples (19 / 20) } := by
  unfold renderFrame
  simp [hctx, sub_pos.mpr hlt]

/-- Witness for C9: the concrete engine, rendered at time 1, posts the
debug report with fps `1000 / (1 - 0)` and its latency quantiles. -/
theorem claim_C9_witness :
    (renderFrame 1 0 engineW).2.2 =
      some { fps := 1000 / ((1 : ℚ) - engineW.lastFrameTime), renderMs := 0,
             latencyP50 := quantile engineW.latencySamples (1 / 2),
             latencyP95 := quantile engineW.latencySamples (19 / 20) } :=
  claim_C9 engineW 1 0 rfl zero_lt_one

theorem dequeueBatch_queue (s : StoreState) : (dequeueBatch s).2.queue = [] := by
  unfold dequeueBatch
  by_cases h : s.queue = [] <;> simp [h]

theorem dequeueBatch_fst (s : StoreState) : (dequeueBatch s).1 = s.queue := by
  unfold dequeueBatch
  by_cases h : s.queue = [] <;> simp [h]

theorem loopStep_queue (w : Bool) (s : DashState) :
    (loopStep w s).store.queue = [] := by
  unfold loopStep
  split <;> exact dequeueBatch_queue _

theorem runDash_extra (ops : List DashOp) :
    ∀ s : DashState, ∃ extra,
      (runDash ops s).sent = s.sent ++ extra ∧
      (extra.flatten ++ (runDash ops s).store.queue).Sublist
        (s.store.queue ++ dashAddsOf ops) := by
  induction ops with
  | nil =>
      intro s
      exact ⟨[], by simp [runDash], by simp [runDash, dashAddsOf]⟩
  | cons op ops ih =>
      intro s
      cases op with
      | add p =>
          obtain ⟨e, he, hsub⟩ := ih { s with store := addMeasurement p s.store }
          have hrun : runDash (DashOp.add p :: ops) s =
              runDash ops { s with store := addMeasurement p s.store } := rfl
          refine ⟨e, by rw [hrun, he], ?_⟩
          rw [hrun]
          simp only [addMeasurement, dashAddsOf] at hsub ⊢
          simpa [List.append_assoc] using hsub
      | tick w =>
          obtain ⟨e, he, hsub⟩ := ih (loopStep w s)
          have hrun : runDash (DashOp.tick w :: ops) s = runDash ops (loopStep w s) :=
            rfl
          rw [loopStep_queue w s] at hsub
          simp only [List.nil_append] at hsub
          by_cases hcond : (dequeueBatch s.store).1.isEmpty = false ∧ w = true
          · have hsent : (loopStep w s).sent = s.sent ++ [(dequeueBatch s.store).1] := by
              unfold loopStep
              rw [if_pos hcond]
            refine ⟨(dequeueBatch s.store).1 :: e, ?_, ?_⟩
            · rw [hrun, he, hsent]
              simp
            · rw [hrun, List.flatten_cons, dequeueBatch_fst, List.append_assoc]
              exact (List.Sublist.refl s.store.queue).append hsub
          · have hsent : (loopStep w s).sent = s.sent := by
              unfold loopStep
              rw [if_neg hcond]
            refine ⟨e, by rw [hrun, he, hsent], ?_⟩
            rw [hrun]
            exact hsub.trans (List.sublist_append_right _ _)

/-- C10. A frame-loop tick with no worker reference still drains the store
(the queue is emptied and nothing is posted), and the drained payloads are
gone for good: every batch posted by any later run of the loop is drawn
exclusively from payloads added after that tick. -/
theorem claim_C10 (s : DashState) (ops : List DashOp) :
    (loopStep false s).sent = s.sent ∧
    (loopStep false s).store.queue = [] ∧
    ∃ extra, (runDash ops (loopStep false s)).sent = s.sent ++ extra ∧
      extra.flatten.Sublist (dashAddsOf ops) := by
  have hsent : (loopStep false s).sent = s.sent := by
    unfold loopStep
    rw [if_neg (by simp)]
  refine ⟨hsent, loopStep_queue false s, ?_⟩
  obtain ⟨e, he, hsub⟩ := runDash_extra ops (loopStep false s)
  refine ⟨e, by rw [he, hsent], ?_⟩
  rw [loopStep_queue false s] at hsub
  simp only [List.nil_append] at hsub
  exact (List.sublist_append_left _ _).trans hsub

/-- Witness for C2: the quantile properties instantiated on the concrete
window [10,20,30,40,50] at q = 1/2. -/
theorem claim_C2_witness :
    quantile [] (1 / 2) = 0 ∧
    (∃ s : List ℚ, s.Perm [10, 20, 30, 40, 50] ∧ s.Sorted (· ≤ ·) ∧
      quantile [10, 20, 30, 40, 50] (1 / 2) = rankValue s (1 / 2)) ∧
    quantile [10, 20, 30, 40, 50] (1 / 2) = 30 ∧
    quantile [10, 20, 30, 40, 50] (19 / 20) = 40 * (1 - 4 / 5) + 50 * (4 / 5) :=
  claim_C2 [10, 20, 30, 40, 50] (1 / 2) (by simp)
